import Mathlib

/-!
Verification of the Kairox.ai web-search-agent conversation pipeline.

This file gives a shallow embedding of the pipeline orchestration core
(`orchestrator.py`) and its utility module (`utils.py`) and proves the
frozen behavioural claims about them.

Modelling conventions:
* Python strings are `String` / `List Char`; slicing `s[:n]` is `List.take`.
* `str.lower()` is modelled per-character on the ASCII range (the inputs
  exercised by the pipeline are ASCII); `str.split()` splits on the
  whitespace characters recognised by `Char.isWhitespace`.
* `json.loads` is modelled by an executable recursive-descent parser
  `json_loads` producing values of the inductive type `JVal`; numbers are
  kept as their source lexeme (no claim depends on numeric value beyond
  zero-ness, which is computed from the lexeme).
* Python falsiness (`if not x:`) is modelled by `truthy`.
* Fallible dynamic attribute access that the source does not guard
  (e.g. `.get` on a non-dict outside a `try`) is modelled in the `Except`
  monad with the `RunSig.pyError` signal; user cancellation
  (`InterruptedError`) is the distinct signal `RunSig.stopped`.
* The external streaming agent is modelled by the list of text fragments
  each stage's stream yields; the stop predicate is a pure function of a
  poll counter that advances once per `should_stop()` call.
-/

namespace Kairox

/-! ## Basic character / string helpers -/

/-- The opening brace character, written via its code point. -/
def lbrace : Char := '\x7b'

/-- The closing brace character, written via its code point. -/
def rbrace : Char := '\x7d'

/-- Model of Python's `str.lower` on a single character (ASCII range). -/
def pyLowerChar (c : Char) : Char :=
  if 65 ≤ c.toNat ∧ c.toNat ≤ 90 then Char.ofNat (c.toNat + 32) else c

/-- Model of Python's `str.lower`. -/
def pyLower (s : List Char) : List Char := s.map pyLowerChar

/-- Model of Python's `needle in haystack` substring test. -/
def strIn (needle : List Char) : List Char → Bool
  | [] => needle.isEmpty
  | h :: t => needle.isPrefixOf (h :: t) || strIn needle t

/-- Model of Python's `str.strip()`. -/
def pyStrip (l : List Char) : List Char :=
  ((l.dropWhile Char.isWhitespace).reverse.dropWhile Char.isWhitespace).reverse

/-- Accumulator pass of `pyWords`; `acc` holds the reversed current word. -/
def pyWordsAux : List Char → List Char → List (List Char)
  | [], acc => if acc = [] then [] else [acc.reverse]
  | c :: cs, acc =>
    if c.isWhitespace then
      if acc = [] then pyWordsAux cs []
      else acc.reverse :: pyWordsAux cs []
    else pyWordsAux cs (c :: acc)

/-- The whitespace-separated words of a string: model of Python `str.split()`. -/
def pyWords (l : List Char) : List (List Char) := pyWordsAux l []

/-- Model of Python's `" ".join(words)`. -/
def joinWords : List (List Char) → List Char
  | [] => []
  | [w] => w
  | w :: ws => w ++ ' ' :: joinWords ws

/-- `normalize_short` from `utils.py`: `" ".join(s.split()).lower()[:max_chars]`. -/
def normalize_short (s : String) (maxChars : Nat := 300) : String :=
  String.mk (((joinWords (pyWords s.data)).map pyLowerChar).take maxChars)

/-! ## JSON values and a model of `json.loads` / `json.dumps`

Python's `json.loads` is modelled by a recursive-descent parser over
`List Char` with a fuel argument for termination.  Numbers keep their
source lexeme.  Duplicate object keys follow Python `dict` semantics:
the first occurrence keeps its position, the last occurrence its value. -/

inductive JVal where
  | null : JVal
  | bool : Bool → JVal
  | num : String → JVal
  | str : String → JVal
  | arr : List JVal → JVal
  | obj : List (String × JVal) → JVal
deriving Inhabited

/-- Hexadecimal digit test (Python `json` accepts both cases). -/
def isHexDigitChar (c : Char) : Bool :=
  c.isDigit || ('a' ≤ c && c ≤ 'f') || ('A' ≤ c && c ≤ 'F')

/-- JSON whitespace accepted by Python's `json` module. -/
def isJsonWs (c : Char) : Bool := c = ' ' || c = '\t' || c = '\n' || c = '\r'

/-- Skip JSON whitespace. -/
def skipWs (l : List Char) : List Char := l.dropWhile isJsonWs

/-- Strip an expected literal prefix, returning the remainder. -/
def stripLit : List Char → List Char → Option (List Char)
  | [], l => some l
  | _, [] => none
  | p :: ps, c :: cs => if p = c then stripLit ps cs else none

/-- Decode the body of a JSON string literal (after the opening quote),
returning the decoded characters and the remainder after the closing
quote.  Raw control characters are rejected (Python strict mode);
`\uXXXX` escapes are mapped through `Char.ofNat`. -/
def parseStringBody : List Char → Option (List Char × List Char)
  | [] => none
  | c :: cs =>
    if c = '"' then some ([], cs)
    else if c = '\\' then
      match cs with
      | [] => none
      | e :: cs2 =>
        let dec : Option Char :=
          if e = '"' then some '"'
          else if e = '\\' then some '\\'
          else if e = '/' then some '/'
          else if e = 'b' then some '\x08'
          else if e = 'f' then some '\x0c'
          else if e = 'n' then some '\n'
          else if e = 'r' then some '\r'
          else if e = 't' then some '\t'
          else none
        match dec with
        | some d =>
          match parseStringBody cs2 with
          | some (body, rest) => some (d :: body, rest)
          | none => none
        | none =>
          if e = 'u' then
            match cs2 with
            | h1 :: h2 :: h3 :: h4 :: cs3 =>
              if isHexDigitChar h1 && isHexDigitChar h2 && isHexDigitChar h3 && isHexDigitChar h4 then
                let hv : Char → Nat := fun h =>
                  if h.isDigit then h.toNat - 48
                  else if 'a' ≤ h ∧ h ≤ 'f' then h.toNat - 87
                  else h.toNat - 55
                let n := ((hv h1 * 16 + hv h2) * 16 + hv h3) * 16 + hv h4
                match parseStringBody cs3 with
                | some (body, rest) => some (Char.ofNat n :: body, rest)
                | none => none
              else none
            | _ => none
          else none
    else if c.toNat < 32 then none
    else
      match parseStringBody cs with
      | some (body, rest) => some (c :: body, rest)
      | none => none

/-- Lex a JSON number per Python's `json` grammar
`-?(0|[1-9][0-9]*)(\.[0-9]+)?([eE][+-]?[0-9]+)?`, returning the lexeme
and the remainder. -/
def parseNumberLex (l : List Char) : Option (List Char × List Char) :=
  let (sgn, l1) := match l with
    | c :: cs => if c = '-' then ([c], cs) else ([], l)
    | [] => ([], l)
  match l1 with
  | [] => none
  | d :: ds =>
    if ¬ d.isDigit then none
    else
      let (ip, l2) :=
        if d = '0' then ([d], ds)
        else
          let digs := ds.takeWhile Char.isDigit
          (d :: digs, ds.dropWhile Char.isDigit)
      let (fp, l3) :=
        match l2 with
        | '.' :: fs =>
          let digs := fs.takeWhile Char.isDigit
          if digs.isEmpty then ([], l2)
          else ('.' :: digs, fs.dropWhile Char.isDigit)
        | _ => ([], l2)
      let badFrac : Bool :=
        match l2 with
        | '.' :: fs => (fs.takeWhile Char.isDigit).isEmpty
        | _ => false
      if badFrac then none
      else
        let (ep, l4) :=
          match l3 with
          | e :: es =>
            if e = 'e' ∨ e = 'E' then
              let (esgn, es1) := match es with
                | s :: ss => if s = '+' ∨ s = '-' then ([s], ss) else ([], es)
                | [] => ([], es)
              let digs := es1.takeWhile Char.isDigit
              if digs.isEmpty then ([], l3)
              else (e :: esgn ++ digs, es1.dropWhile Char.isDigit)
            else ([], l3)
          | [] => ([], l3)
        some (sgn ++ ip ++ fp ++ ep, l4)

/-- Insert a key/value pair into an object with Python `dict` semantics:
an existing key keeps its position but takes the new value. -/
def objInsert : List (String × JVal) → String → JVal → List (String × JVal)
  | [], k, v => [(k, v)]
  | (k0, v0) :: rest, k, v =>
    if k0 = k then (k0, v) :: rest else (k0, v0) :: objInsert rest k v

mutual

/-- Parse one JSON value at the head of the input (no leading whitespace). -/
def parseValue : Nat → List Char → Option (JVal × List Char)
  | 0, _ => none
  | fuel + 1, l =>
    match l with
    | [] => none
    | c :: cs =>
      if c = lbrace then
        let r := skipWs cs
        match r with
        | d :: ds =>
          if d = rbrace then some (.obj [], ds)
          else parseMembers fuel r []
        | [] => none
      else if c = '[' then
        let r := skipWs cs
        match r with
        | d :: ds =>
          if d = ']' then some (.arr [], ds)
          else parseItems fuel r []
        | [] => none
      else if c = '"' then
        match parseStringBody cs with
        | some (body, rest) => some (.str (String.mk body), rest)
        | none => none
      else if c = 't' then
        (stripLit "rue".data cs).map (fun r => (.bool true, r))
      else if c = 'f' then
        (stripLit "alse".data cs).map (fun r => (.bool false, r))
      else if c = 'n' then
        (stripLit "ull".data cs).map (fun r => (.null, r))
      else if c = 'N' then
        (stripLit "aN".data cs).map (fun r => (.num "NaN", r))
      else if c = 'I' then
        (stripLit "nfinity".data cs).map (fun r => (.num "Infinity", r))
      else if c = '-' ∧ cs.head? = some 'I' then
        (stripLit "Infinity".data cs.tail).map (fun r => (.num "-Infinity", r))
      else if c = '-' ∨ c.isDigit then
        match parseNumberLex l with
        | some (lex, rest) => some (.num (String.mk lex), rest)
        | none => none
      else none

/-- Parse the members of a JSON object after at least one member is known
to follow (input starts at the first key, whitespace already skipped). -/
def parseMembers : Nat → List Char → List (String × JVal) → Option (JVal × List Char)
  | 0, _, _ => none
  | fuel + 1, l, acc =>
    match l with
    | c :: cs =>
      if c = '"' then
        match parseStringBody cs with
        | some (key, r1) =>
          match skipWs r1 with
          | ':' :: r2 =>
            match parseValue fuel (skipWs r2) with
            | some (v, r3) =>
              let acc2 := objInsert acc (String.mk key) v
              match skipWs r3 with
              | ',' :: r4 => parseMembers fuel (skipWs r4) acc2
              | d :: r5 => if d = rbrace then some (.obj acc2, r5) else none
              | [] => none
            | none => none
          | _ => none
        | none => none
      else none
    | [] => none

/-- Parse the items of a JSON array after at least one item is known to
follow (input starts at the first item, whitespace already skipped). -/
def parseItems : Nat → List Char → List JVal → Option (JVal × List Char)
  | 0, _, _ => none
  | fuel + 1, l, acc =>
    match parseValue fuel l with
    | some (v, r1) =>
      match skipWs r1 with
      | ',' :: r2 => parseItems fuel (skipWs r2) (v :: acc)
      | ']' :: r3 => some (.arr (v :: acc).reverse, r3)
      | _ => none
    | none => none

end

/-- Model of Python's `json.loads`: parse one value surrounded by optional
whitespace; anything left over is an error. -/
def json_loads (s : String) : Option JVal :=
  match parseValue (s.data.length + 1) (skipWs s.data) with
  | some (v, rest) => if skipWs rest = [] then some v else none
  | none => none

/-! ## `extract_json_substring` from `utils.py` -/

/-- Opening-bracket test: `ch in "{["` in the source. -/
def isOpen (c : Char) : Bool := c = lbrace || c = '['

/-- Closing-bracket test: `ch in "}]"` in the source. -/
def isClose (c : Char) : Bool := c = rbrace || c = ']'

/-- The scanning loop of `extract_json_substring`, parameterised by the
JSON-validity check `loads`.  `consumedRev` is the reversed text consumed
so far (the candidate always runs from the first bracket to the current
character), `stack` the open-bracket stack. -/
def scanLoop (loads : String → Option JVal) :
    List Char → List Char → List Char → Option String
  | _, _, [] => none
  | consumedRev, stack, ch :: rest =>
    if isOpen ch then
      scanLoop loads (ch :: consumedRev) (ch :: stack) rest
    else if isClose ch then
      match stack with
      | [] => none
      | _ :: stack2 =>
        if stack2 = [] then
          let candidate := String.mk (ch :: consumedRev).reverse
          if (loads candidate).isSome then some candidate
          else scanLoop loads (ch :: consumedRev) stack2 rest
        else scanLoop loads (ch :: consumedRev) stack2 rest
    else scanLoop loads (ch :: consumedRev) stack rest

/-- `extract_json_substring` from `utils.py`: find the first `{` or `[`,
then balance brackets, returning the first balanced substring that
`json.loads` accepts. -/
def extract_json_substring (text : String) : Option String :=
  if (text.data.dropWhile (fun c => ¬ isOpen c)).isEmpty then none
  else scanLoop json_loads [] [] (text.data.dropWhile (fun c => ¬ isOpen c))

/-! ## Python truthiness and `str()` for JSON-derived values -/

/-- Whether a number lexeme denotes zero (`0`, `-0.0`, `0e5`, …).
`NaN`/`Infinity` have non-`0`/`.` characters and are truthy. -/
def numIsZero (lex : String) : Bool :=
  let mantissa := lex.data.takeWhile (fun c => c ≠ 'e' ∧ c ≠ 'E')
  let m := if mantissa.head? = some '-' then mantissa.tail else mantissa
  ¬ m.isEmpty && m.all (fun c => c = '0' ∨ c = '.')

/-- Python truthiness of a JSON-derived value. -/
def truthy : JVal → Bool
  | .null => false
  | .bool b => b
  | .num lex => ¬ numIsZero lex
  | .str s => ¬ s.isEmpty
  | .arr xs => ¬ xs.isEmpty
  | .obj kvs => ¬ kvs.isEmpty

/-- Python truthiness of `d.get(k)`'s result (`None` when absent). -/
def truthyOpt : Option JVal → Bool
  | none => false
  | some v => truthy v

/-- Escape one character for a JSON string literal (compact model of the
escaping performed by `json.dumps`). -/
def jsonEscapeChar (c : Char) : List Char :=
  if c = '"' then ['\\', '"']
  else if c = '\\' then ['\\', '\\']
  else if c = '\n' then ['\\', 'n']
  else if c = '\t' then ['\\', 't']
  else if c = '\r' then ['\\', 'r']
  else [c]

/-- Join strings with `", "` separators. -/
def joinComma : List String → String
  | [] => ""
  | [x] => x
  | x :: xs => x ++ ", " ++ joinComma xs

/-- A JSON string literal for `s` (compact escaping). -/
def dumpsStrLit (s : String) : String :=
  String.mk ('"' :: (s.data.flatMap jsonEscapeChar) ++ ['"'])

mutual

/-- Compact model of Python's `json.dumps` (the source also uses
`indent=2` for payloads handed to the external agent; the payload text
is opaque to this model, so the compact separators are used throughout). -/
def json_dumps : JVal → String
  | .null => "null"
  | .bool true => "true"
  | .bool false => "false"
  | .num lex => lex
  | .str s => dumpsStrLit s
  | .arr xs => "[" ++ dumpsList xs ++ "]"
  | .obj kvs => String.mk [lbrace] ++ dumpsObj kvs ++ String.mk [rbrace]

/-- Comma-separated dump of array items. -/
def dumpsList : List JVal → String
  | [] => ""
  | [x] => json_dumps x
  | x :: xs => json_dumps x ++ ", " ++ dumpsList xs

/-- Comma-separated dump of object members. -/
def dumpsObj : List (String × JVal) → String
  | [] => ""
  | [(k, v)] => dumpsStrLit k ++ ": " ++ json_dumps v
  | (k, v) :: kvs => dumpsStrLit k ++ ": " ++ json_dumps v ++ ", " ++ dumpsObj kvs

end

mutual

/-- Model of Python's `repr` on JSON-derived values (string escaping
abbreviated to quoting, which the pipeline never exercises). -/
def pyRepr : JVal → String
  | .null => "None"
  | .bool true => "True"
  | .bool false => "False"
  | .num lex => lex
  | .str s => String.mk ('\x27' :: s.data ++ ['\x27'])
  | .arr xs => "[" ++ pyReprList xs ++ "]"
  | .obj kvs => String.mk [lbrace] ++ pyReprObj kvs ++ String.mk [rbrace]

/-- `repr` of list elements. -/
def pyReprList : List JVal → String
  | [] => ""
  | [x] => pyRepr x
  | x :: xs => pyRepr x ++ ", " ++ pyReprList xs

/-- `repr` of dict members. -/
def pyReprObj : List (String × JVal) → String
  | [] => ""
  | [(k, v)] => pyRepr (.str k) ++ ": " ++ pyRepr v
  | (k, v) :: kvs => pyRepr (.str k) ++ ": " ++ pyRepr v ++ ", " ++ pyReprObj kvs

end

/-- Model of Python's `str()` on JSON-derived values. -/
def pyStr : JVal → String
  | .str s => s
  | v => pyRepr v

/-! ## `extract_first_step_description` from `utils.py` -/

/-- `entry.get("description") or json.dumps(entry)` where `kvs` are the
members of the dict `whole`. -/
def descOrDumps (kvs : List (String × JVal)) (whole : JVal) : JVal :=
  match kvs.lookup "description" with
  | some d => if truthy d then d else .str (json_dumps whole)
  | none => .str (json_dumps whole)

/-- The dict-scanning loop shared by the planner parsing in
`run_conversation` (lines 172–178) and `extract_first_step_description`:
find the first value that is a non-empty list whose first element is a
dict, and take its description (or serialization). -/
def scanPlanValues : List (String × JVal) → Option JVal
  | [] => none
  | (_, v) :: rest =>
    match v with
    | .arr (entry :: _) =>
      match entry with
      | .obj ekvs => some (descOrDumps ekvs entry)
      | _ => scanPlanValues rest
    | _ => scanPlanValues rest

/-- Try to match `"description"\s*:\s*"([^"]+)"` at the head of `l`,
returning the capture. -/
def matchDescAt (l : List Char) : Option (List Char) :=
  match stripLit "\"description\"".data l with
  | none => none
  | some r1 =>
    match r1.dropWhile Char.isWhitespace with
    | ':' :: r3 =>
      match r3.dropWhile Char.isWhitespace with
      | '"' :: r5 =>
        let cap := r5.takeWhile (fun c => c ≠ '"')
        let rest := r5.dropWhile (fun c => c ≠ '"')
        if ¬ cap.isEmpty ∧ rest.head? = some '"' then some cap else none
      | _ => none
    | _ => none

/-- Leftmost match of the description regex: model of
`re.search(r#"description"\s*:\s*"([^"]+)"#, text)`. -/
def findDescRegex : List Char → Option (List Char)
  | [] => none
  | c :: cs =>
    match matchDescAt (c :: cs) with
    | some cap => some cap
    | none => findDescRegex cs

/-- The regex-then-truncation tail of `extract_first_step_description`
(lines 89–93 of `utils.py`). -/
def descRegexFallback (planner_text : String) : Option JVal :=
  match findDescRegex planner_text.data with
  | some cap => some (.str (String.mk cap))
  | none =>
    let t := normalize_short planner_text 400
    if ¬ t.isEmpty then some (.str (String.mk (t.data.take 350) ++ "...")) else none

/-- `extract_first_step_description` from `utils.py`.  The returned value
is the Python object returned by the function (a string in all regex /
truncation branches, possibly any truthy JSON value from a
`description` field). -/
def extract_first_step_description (planner_text : String) : Option JVal :=
  match json_loads planner_text with
  | some parsed =>
    match parsed with
    | .arr (first :: _) =>
      match first with
      | .obj kvs => some (descOrDumps kvs first)
      | _ => descRegexFallback planner_text
    | .obj kvs =>
      match scanPlanValues kvs with
      | some d => some d
      | none => descRegexFallback planner_text
    | _ => descRegexFallback planner_text
  | none => descRegexFallback planner_text

/-! ## Stage-output parsing in `run_conversation` -/

/-- The two-attempt JSON parse used for every structured stage: parse the
whole text; on failure parse the extracted balanced substring; `none`
when both fail. -/
def parse_stage (raw : String) : Option JVal :=
  match json_loads raw with
  | some v => some v
  | none =>
    match extract_json_substring raw with
    | some js => json_loads js
    | none => none

/-- The research stage's fallback record (lines 210–215 of
`orchestrator.py`). -/
def researchFallback (raw : String) : JVal :=
  .obj [("answer", .str (normalize_short raw 1000)),
        ("citations", .arr []),
        ("method", .obj [("tools_used", .arr [])])]

/-- The research stage's recorded value: the parse result unless it is
absent or falsy (`if not research_json:`), in which case the fallback. -/
def research_json_of (raw : String) : JVal :=
  match parse_stage raw with
  | some v => if truthy v then v else researchFallback raw
  | none => researchFallback raw

/-- The critic stage's fallback record (lines 276–280 of
`orchestrator.py`); `notes` is the raw output truncated to 400
characters. -/
def criticFallback (raw : String) : JVal :=
  .obj [("verdict", .str "REVISE"),
        ("fixes", .arr [.str "Critic output unparsable — request a follow-up."]),
        ("notes", .str (String.mk (raw.data.take 400)))]

/-- The critic stage's recorded value (`if not critic_json:`). -/
def critic_json_of (raw : String) : JVal :=
  match parse_stage raw with
  | some v => if truthy v then v else criticFallback raw
  | none => criticFallback raw

/-! ## Research focus derivation (lines 165–183 of `orchestrator.py`) -/

/-- A distinguishable run outcome: user cancellation
(`InterruptedError("Stopped by user")`) versus an unguarded Python
runtime error (e.g. `.get` on a non-dict outside any `try`). -/
inductive RunSig where
  | stopped : RunSig
  | pyError : RunSig
deriving DecidableEq, Repr

/-- `extract_first_step_description(planner_out) or user_question`. -/
def focusFallbackChain (planner_out user_question : String) : JVal :=
  match extract_first_step_description planner_out with
  | some v => if truthy v then v else .str user_question
  | none => .str user_question

/-- The `research_focus` computation.  When `plan` is a truthy non-empty
list whose first element is not a dict, the source calls `.get` on it
and raises (`RunSig.pyError`). -/
def research_focus_of (planner_out user_question : String) (plan : Option JVal) :
    Except RunSig JVal :=
  match plan with
  | some p =>
    if truthy p then
      match p with
      | .arr (first :: _) =>
        match first with
        | .obj kvs => .ok (descOrDumps kvs first)
        | _ => .error .pyError
      | .arr [] => .ok (focusFallbackChain planner_out user_question)
      | .obj kvs =>
        match scanPlanValues kvs with
        | some d => .ok (if truthy d then d else focusFallbackChain planner_out user_question)
        | none => .ok (focusFallbackChain planner_out user_question)
      | _ => .ok (focusFallbackChain planner_out user_question)
    else .ok (focusFallbackChain planner_out user_question)
  | none => .ok (focusFallbackChain planner_out user_question)

/-! ## Research warnings (lines 216–235 of `orchestrator.py`) -/

/-- The preference string: `"tavily" if str(p).lower().startswith("tav")
else "firecrawl"`. -/
def prefOf (research_preference : String) : String :=
  if "tav".data.isPrefixOf (pyLower research_preference.data) then "tavily" else "firecrawl"

/-- `tools_used`: lowercased `str()` of the `method.tools_used` entries;
any dynamic failure inside the `try` (non-dict `research_json` or
non-dict `method`) yields `[]`, as does a non-list `tools_used`. -/
def toolsUsedOf (rj : JVal) : List String :=
  match rj with
  | .obj kvs =>
    match (kvs.lookup "method").getD (.obj []) with
    | .obj mkvs =>
      match (mkvs.lookup "tools_used").getD (.arr []) with
      | .arr xs => xs.map (fun x => String.mk (pyLower (pyStr x).data))
      | _ => []
    | _ => []
  | _ => []

/-- The evidence check over a dict `research_json`
(`bool(rj.get("citations")) or …`). -/
def hasEvidenceOf (kvs : List (String × JVal)) : Bool :=
  truthyOpt (kvs.lookup "citations") || truthyOpt (kvs.lookup "sources") ||
    truthyOpt (kvs.lookup "evidence") || truthyOpt (kvs.lookup "evidence_table")

/-- Warning emitted when no evidence-bearing field is non-empty. -/
def noEvidenceMsg : String :=
  "Research returned no citations/sources. Tools may be unavailable or prompts need tuning."

/-- Warning emitted under the tavily preference when no tool name
contains `internet_search`. -/
def tavilyMsg : String :=
  "Deep Research requested, but Tavily internet_search tool was not used."

/-- Warning emitted under the firecrawl preference when no tool name
contains `firecrawl`. -/
def firecrawlMsg : String :=
  "Research did not use Firecrawl tools. Check Firecrawl availability or prompts."

/-- The research-stage warning list.  `research_json.get("citations")` on
a non-dict raises outside any `try`, so a non-dict `research_json` is a
`pyError`. -/
def research_warnings (rj : JVal) (pref : String) : Except RunSig (List String) :=
  let tools_used := toolsUsedOf rj
  match rj with
  | .obj kvs =>
    let w1 : List String := if ¬ hasEvidenceOf kvs then [noEvidenceMsg] else []
    let w2 : List String :=
      if pref = "tavily" then
        if ¬ tools_used.any (fun t => strIn "internet_search".data t.data) then [tavilyMsg] else []
      else
        if ¬ tools_used.any (fun t => strIn "firecrawl".data t.data) then [firecrawlMsg] else []
    .ok (w1 ++ w2)
  | _ => .error .pyError

/-! ## The stream filter & collector (`stream_subagent`, lines 28–118)

The external agent's stream is modelled as the list of `(text, kind)`
items each chunk yields after the source's `content` /
`reasoning_content` extraction.  The stop predicate is a pure function
of a poll counter advanced once per `should_stop()` call.  Observer
forwarding and console printing take the same guarded branch in the
source, so both are modelled by the single `emitted` list. -/

/-- One extracted text item: `(text, kind)` with kind `content` or
`reasoning`. -/
abbrev TextItem := String × String

/-- One streamed chunk, as the text items extracted from it. -/
abbrev Chunk := List TextItem

/-- The collector state of one role invocation. -/
structure SState where
  collected : List String
  seen : List String
  emitted : List (String × String × String)
  ctr : Nat
deriving DecidableEq, Repr

/-- The role invocation preamble built by `stream_subagent`. -/
def roleInvocation (role_name : String) : String :=
  "ROLE: " ++ role_name ++
    "\nINSTRUCTIONS: Return only the requested output (JSON or plain text per task). DO NOT echo role text."

/-- The fragment filters of `stream_subagent` (lines 92–106), in source
order; `true` means the fragment is discarded. -/
def fragmentDiscarded (roleInvNorm regNorm : String) (seen : List String)
    (t : String) : Bool :=
  let t_norm := normalize_short t
  strIn "<|tool_call".data t.data ||
  strIn "<|tool_calls_section".data t.data ||
  strIn "functions.write_todos".data t.data ||
  (¬ roleInvNorm.isEmpty && strIn roleInvNorm.data t_norm.data) ||
  (¬ regNorm.isEmpty && strIn regNorm.data t_norm.data) ||
  strIn "\"objective\"".data (pyLower t.data) ||
  strIn "\"constraints\"".data (pyLower t.data) ||
  strIn "objective:".data (pyLower t.data) ||
  "i\x27ll research".data.isPrefixOf (pyLower (pyStrip t.data)) ||
  "i will research".data.isPrefixOf (pyLower (pyStrip t.data)) ||
  seen.contains t_norm ||
  decide ((pyStrip t.data).length < 3)

/-- Process the text items of one chunk; `.error` carries the state at a
user cancellation. -/
def processTexts (roleInvNorm regNorm tag : String) (shouldStop : Nat → Bool) :
    List TextItem → SState → Except SState SState
  | [], st => .ok st
  | (t, kind) :: rest, st =>
    if shouldStop st.ctr then .error { st with ctr := st.ctr + 1 }
    else
      let st1 : SState := { st with ctr := st.ctr + 1 }
      if fragmentDiscarded roleInvNorm regNorm st1.seen t then
        processTexts roleInvNorm regNorm tag shouldStop rest st1
      else
        processTexts roleInvNorm regNorm tag shouldStop rest
          { st1 with
            collected := st1.collected ++ [t],
            seen := normalize_short t :: st1.seen,
            emitted := st1.emitted ++ [(tag, t, kind)] }

/-- Process the chunk stream, polling the stop predicate before each
chunk and before each text item. -/
def processChunks (roleInvNorm regNorm tag : String) (shouldStop : Nat → Bool) :
    List Chunk → SState → Except SState SState
  | [], st => .ok st
  | chunk :: rest, st =>
    if shouldStop st.ctr then .error { st with ctr := st.ctr + 1 }
    else
      match processTexts roleInvNorm regNorm tag shouldStop chunk
          { st with ctr := st.ctr + 1 } with
      | .error st2 => .error st2
      | .ok st2 => processChunks roleInvNorm regNorm tag shouldStop rest st2

/-- `stream_subagent`: one role invocation over its chunk stream,
starting from an empty collector state at poll counter `ctr`. -/
def stream_subagent (role_name registered_prompt tag : String)
    (chunks : List Chunk) (shouldStop : Nat → Bool) (ctr : Nat) :
    Except SState SState :=
  processChunks (normalize_short (roleInvocation role_name))
    (normalize_short registered_prompt 300) tag shouldStop chunks
    ⟨[], [], [], ctr⟩

/-! ## The pipeline orchestrator (`run_conversation`, lines 121–316) -/

/-- The five stage streams the external agent produces for one
conversation turn. -/
structure AgentStreams where
  planner : List Chunk
  research : List Chunk
  candidate : List Chunk
  critic : List Chunk
  final : List Chunk

/-- The aggregated result dictionary returned by `run_conversation`
(lines 305–316). -/
structure ConvResult where
  user_question : String
  planner : String
  plan_parsed : Option JVal
  research_raw : String
  research_json : JVal
  candidate : String
  critic_raw : String
  critic_json : JVal
  final : String
  warnings : List String

/-- `run_conversation`: the five-stage pipeline.  Besides the source's
return value it exposes the list of role invocations performed, so that
"stage N was never invoked" is statable.  The payload strings built
between stages are opaque to the external-agent model (its responses
are the `streams` parameter) and are not reconstructed here; the
unguarded dynamic accesses the source performs between stages
(`research_focus` derivation, the warning computation) are modelled
faithfully, including their `pyError` outcomes. -/
def run_conversation (subPrompts : String → String) (streams : AgentStreams)
    (user_question : String) (research_preference : String)
    (shouldStop : Nat → Bool) : List String × Except RunSig ConvResult :=
  let tr1 := ["planner-agent"]
  match stream_subagent "planner-agent" (subPrompts "planner-agent") "planner"
      streams.planner shouldStop 0 with
  | .error _ => (tr1, .error .stopped)
  | .ok st1 =>
    let planner_out := String.join st1.collected
    let plan := parse_stage planner_out
    match research_focus_of planner_out user_question plan with
    | .error e => (tr1, .error e)
    | .ok _focus =>
      let pref := prefOf research_preference
      let tr2 := tr1 ++ ["research-agent"]
      match stream_subagent "research-agent" (subPrompts "research-agent") "research"
          streams.research shouldStop st1.ctr with
      | .error _ => (tr2, .error .stopped)
      | .ok st2 =>
        let research_out_raw := String.join st2.collected
        let research_json := research_json_of research_out_raw
        match research_warnings research_json pref with
        | .error e => (tr2, .error e)
        | .ok warnings =>
          let tr3 := tr2 ++ ["main-agent"]
          match stream_subagent "main-agent" (subPrompts "main-agent") "reasoning"
              streams.candidate shouldStop st2.ctr with
          | .error _ => (tr3, .error .stopped)
          | .ok st3 =>
            let candidate_out := String.join st3.collected
            let tr4 := tr3 ++ ["critic-agent"]
            match stream_subagent "critic-agent" (subPrompts "critic-agent") "critic"
                streams.critic shouldStop st3.ctr with
            | .error _ => (tr4, .error .stopped)
            | .ok st4 =>
              let critic_out_raw := String.join st4.collected
              let critic_json := critic_json_of critic_out_raw
              let tr5 := tr4 ++ ["main-agent"]
              match stream_subagent "main-agent" (subPrompts "main-agent") "final"
                  streams.final shouldStop st4.ctr with
              | .error _ => (tr5, .error .stopped)
              | .ok st5 =>
                (tr5, .ok {
                  user_question := user_question,
                  planner := planner_out,
                  plan_parsed := plan,
                  research_raw := research_out_raw,
                  research_json := research_json,
                  candidate := candidate_out,
                  critic_raw := critic_out_raw,
                  critic_json := critic_json,
                  final := String.join st5.collected,
                  warnings := warnings })

/-! ## Helper lemmas -/

/-- The state reached by a role invocation, whether it completed or was
cancelled. -/
def outState : Except SState SState → SState
  | .ok st => st
  | .error st => st

theorem head_dropWhile_not {α : Type} (p : α → Bool) :
    ∀ (l : List α) (c : α), (l.dropWhile p).head? = some c → p c = false := by
  intro l
  induction l with
  | nil => intro c h; simp [List.dropWhile] at h
  | cons a t ih =>
    intro c h
    rw [List.dropWhile_cons] at h
    by_cases hp : p a = true
    · simp only [hp, if_true] at h; exact ih c h
    · have hp' : p a = false := by simpa using hp
      rw [hp'] at h
      simp only [Bool.false_eq_true, if_false, List.head?_cons, Option.some.injEq] at h
      rw [← h]; exact hp'

/-- Soundness of the extraction scan loop: any returned candidate was
validated by `loads` and extends the consumed prefix by at least one
character. -/
theorem scanLoop_sound (loads : String → Option JVal) :
    ∀ (l consumedRev stack : List Char) (s : String),
      scanLoop loads consumedRev stack l = some s →
      (loads s).isSome = true ∧
        ∃ k, 1 ≤ k ∧ s.data = consumedRev.reverse ++ l.take k := by
  intro l
  induction l with
  | nil => intro consumedRev stack s h; simp [scanLoop] at h
  | cons ch rest ih =>
    intro consumedRev stack s h
    simp only [scanLoop] at h
    by_cases ho : isOpen ch = true
    · rw [if_pos ho] at h
      obtain ⟨hl, k, hk, hs⟩ := ih (ch :: consumedRev) (ch :: stack) s h
      refine ⟨hl, k + 1, by omega, ?_⟩
      rw [hs]; simp [List.take_succ_cons]
    · rw [if_neg ho] at h
      by_cases hc : isClose ch = true
      · rw [if_pos hc] at h
        cases stack with
        | nil => simp at h
        | cons st0 stack2 =>
          simp only at h
          by_cases h2 : stack2 = []
          · rw [if_pos h2] at h
            by_cases hv : (loads (String.mk (ch :: consumedRev).reverse)).isSome = true
            · rw [if_pos hv] at h
              rw [Option.some.injEq] at h
              subst h
              refine ⟨hv, 1, le_refl 1, ?_⟩
              simp [List.take_succ_cons]
            · rw [if_neg hv] at h
              obtain ⟨hl, k, hk, hs⟩ := ih (ch :: consumedRev) stack2 s h
              refine ⟨hl, k + 1, by omega, ?_⟩
              rw [hs]; simp [List.take_succ_cons]
          · rw [if_neg h2] at h
            obtain ⟨hl, k, hk, hs⟩ := ih (ch :: consumedRev) stack2 s h
            refine ⟨hl, k + 1, by omega, ?_⟩
            rw [hs]; simp [List.take_succ_cons]
      · rw [if_neg hc] at h
        obtain ⟨hl, k, hk, hs⟩ := ih (ch :: consumedRev) stack s h
        refine ⟨hl, k + 1, by omega, ?_⟩
        rw [hs]; simp [List.take_succ_cons]

/-! ## Claim C10 -/

/-- C10: whenever `extract_json_substring` returns a non-absent result,
that string itself parses successfully as JSON and begins with `{` or
`[` (the function only returns candidates it has already validated), so
a caller's subsequent parse of a non-absent result cannot fail. -/
theorem C10_extract_validated (text : String) (s : String)
    (h : extract_json_substring text = some s) :
    (json_loads s).isSome = true ∧
      ∃ c, s.data.head? = some c ∧ isOpen c = true := by
  unfold extract_json_substring at h
  by_cases he : (text.data.dropWhile (fun c => ¬ isOpen c)).isEmpty = true
  · rw [if_pos he] at h; exact absurd h (by simp)
  · rw [if_neg he] at h
    cases hr : text.data.dropWhile (fun c => ¬ isOpen c) with
    | nil => rw [hr] at he; simp at he
    | cons ch tl =>
      rw [hr] at h
      obtain ⟨hl, k, hk, hs⟩ := scanLoop_sound json_loads (ch :: tl) [] [] s h
      refine ⟨hl, ch, ?_, ?_⟩
      · rw [hs]
        match k, hk with
        | k + 1, _ => simp [List.take_succ_cons]
      · have hh : (text.data.dropWhile (fun c => ¬ isOpen c)).head? = some ch := by
          rw [hr]; rfl
        have hnot := head_dropWhile_not (fun c => ¬ isOpen c) text.data ch hh
        simpa using hnot

/-- Witness for C10 at a concrete input. -/
theorem C10_witness :
    extract_json_substring "xx[1, 2]yy" = some "[1, 2]" ∧
      ((json_loads "[1, 2]").isSome = true ∧
        ∃ c, "[1, 2]".data.head? = some c ∧ isOpen c = true) :=
  ⟨rfl, C10_extract_validated "xx[1, 2]yy" "[1, 2]" rfl⟩

/-! ## Claim C1 (corrected) -/

/-- C1 counterexample: the raw output `"0"` is parsed successfully by
the very first attempt, yet both the research and the critic stage
record their fallback value, not the parsed value — the fallback is
also used when a parse attempt succeeds with a falsy value, because the
source tests `if not research_json:` / `if not critic_json:`. -/
theorem C1_counterexample :
    parse_stage "0" = some (.num "0") ∧
    research_json_of "0" = researchFallback "0" ∧
    critic_json_of "0" = criticFallback "0" ∧
    researchFallback "0" ≠ .num "0" ∧
    criticFallback "0" ≠ .num "0" :=
  ⟨rfl, rfl, rfl, by simp [researchFallback], by simp [criticFallback]⟩

/-- C1 amended: for the research and critic stages, the recorded value
is the parsed value whenever one of the two JSON-parsing attempts
(whole text first, then extracted balanced substring) succeeds with a
truthy (non-empty / non-null / non-zero / non-false) value; the
stage-specific fallback is used when both attempts fail or the parsed
value is falsy. -/
theorem C1_parse_precedence (raw : String) (v : JVal)
    (h : parse_stage raw = some v) (ht : truthy v = true) :
    research_json_of raw = v ∧ critic_json_of raw = v := by
  unfold research_json_of critic_json_of
  rw [h]
  simp [ht]

/-- Witness for C1 at a concrete input. -/
theorem C1_witness :
    parse_stage "[1]" = some (.arr [.num "1"]) ∧
    truthy (.arr [.num "1"]) = true ∧
    research_json_of "[1]" = .arr [.num "1"] ∧
    critic_json_of "[1]" = .arr [.num "1"] := by
  refine ⟨rfl, rfl, ?_, ?_⟩
  · exact (C1_parse_precedence "[1]" (.arr [.num "1"]) rfl rfl).1
  · exact (C1_parse_precedence "[1]" (.arr [.num "1"]) rfl rfl).2

/-! ## Claim C5 -/

/-- C5: when the critic stage's raw output is not JSON and contains no
balanced JSON substring, the recorded critic value is the fallback
record: verdict `"REVISE"`, exactly one generic fix message, and notes
equal to the raw output truncated to 400 characters. -/
theorem C5_critic_fallback (raw : String)
    (h1 : json_loads raw = none) (h2 : extract_json_substring raw = none) :
    critic_json_of raw =
      .obj [("verdict", .str "REVISE"),
            ("fixes", .arr [.str "Critic output unparsable — request a follow-up."]),
            ("notes", .str (String.mk (raw.data.take 400)))] := by
  unfold critic_json_of parse_stage
  rw [h1, h2]
  rfl

/-- Witness for C5 at the spec's concrete input `"not json"`. -/
theorem C5_witness :
    json_loads "not json" = none ∧
    extract_json_substring "not json" = none ∧
    critic_json_of "not json" =
      .obj [("verdict", .str "REVISE"),
            ("fixes", .arr [.str "Critic output unparsable — request a follow-up."]),
            ("notes", .str "not json")] :=
  ⟨rfl, rfl, C5_critic_fallback "not json" rfl rfl⟩

/-! ## Claim C9 -/

/-- C9: when the planner output parses as a non-empty JSON array whose
first element is an object with a non-empty string `description`, the
derived research focus is exactly that description. -/
theorem C9_research_focus (planner_out user_question d : String)
    (kvs : List (String × JVal)) (rest : List JVal)
    (h : json_loads planner_out = some (.arr (.obj kvs :: rest)))
    (hd : kvs.lookup "description" = some (.str d))
    (hne : d ≠ "") :
    research_focus_of planner_out user_question (parse_stage planner_out) =
      .ok (.str d) := by
  have hp : parse_stage planner_out = some (.arr (.obj kvs :: rest)) := by
    unfold parse_stage; rw [h]
  rw [hp]
  have htr : truthy (JVal.arr (JVal.obj kvs :: rest)) = true := by simp [truthy]
  have htd : truthy (JVal.str d) = true := by
    simp [truthy, String.isEmpty_iff, hne]
  simp only [research_focus_of, descOrDumps, hd, htr, if_true, htd]

/-- Witness for C9 at the spec's end-to-end scenario. -/
theorem C9_witness :
    json_loads "[\x7b\"step_id\":\"1\",\"description\":\"Research ARC-AGI definition\",\"assigned_to\":\"research-agent\",\"expected_artifact\":\"summary\"\x7d]" =
      some (.arr [.obj [("step_id", .str "1"),
                        ("description", .str "Research ARC-AGI definition"),
                        ("assigned_to", .str "research-agent"),
                        ("expected_artifact", .str "summary")]]) ∧
    research_focus_of
      "[\x7b\"step_id\":\"1\",\"description\":\"Research ARC-AGI definition\",\"assigned_to\":\"research-agent\",\"expected_artifact\":\"summary\"\x7d]"
      "What is ARC-AGI?"
      (parse_stage "[\x7b\"step_id\":\"1\",\"description\":\"Research ARC-AGI definition\",\"assigned_to\":\"research-agent\",\"expected_artifact\":\"summary\"\x7d]") =
      .ok (.str "Research ARC-AGI definition") :=
  ⟨rfl,
   C9_research_focus _ "What is ARC-AGI?" "Research ARC-AGI definition"
     [("step_id", .str "1"), ("description", .str "Research ARC-AGI definition"),
      ("assigned_to", .str "research-agent"), ("expected_artifact", .str "summary")]
     [] rfl rfl (by decide)⟩

/-! ## Claim C6 -/

/-- Closed form of `research_warnings` on a dict `research_json`. -/
theorem research_warnings_obj (kvs : List (String × JVal)) (pref : String) :
    research_warnings (.obj kvs) pref =
      .ok ((if ¬ hasEvidenceOf kvs = true then [noEvidenceMsg] else []) ++
        (if pref = "tavily" then
          (if ¬ (toolsUsedOf (.obj kvs)).any (fun t => strIn "internet_search".data t.data) = true
            then [tavilyMsg] else [])
         else
          (if ¬ (toolsUsedOf (.obj kvs)).any (fun t => strIn "firecrawl".data t.data) = true
            then [firecrawlMsg] else []))) := rfl

/-- C6: with the tavily preference and a parsed research JSON whose
`method.tools_used` is `["firecrawl_scrape"]`, the warnings contain the
Tavily-not-used message; and the evidence-absence warning is
independent and cumulative: when no evidence-bearing field is truthy
the warning list is exactly both messages, in source order. -/
theorem C6_tool_warnings (kvs mkvs : List (String × JVal))
    (hm : kvs.lookup "method" = some (.obj mkvs))
    (ht : mkvs.lookup "tools_used" = some (.arr [.str "firecrawl_scrape"])) :
    prefOf "tavily" = "tavily" ∧
    (∀ ws, research_warnings (.obj kvs) (prefOf "tavily") = .ok ws →
      tavilyMsg ∈ ws ∧
        (hasEvidenceOf kvs = false → ws = [noEvidenceMsg, tavilyMsg])) := by
  have hpref : prefOf "tavily" = "tavily" := by decide
  refine ⟨hpref, ?_⟩
  intro ws hws
  have htools : toolsUsedOf (.obj kvs) = ["firecrawl_scrape"] := by
    simp only [toolsUsedOf, hm, Option.getD_some, ht]; rfl
  have hnotool :
      (¬ (["firecrawl_scrape"].any fun t => strIn "internet_search".data t.data) = true) := by
    decide
  rw [research_warnings_obj, hpref, htools, if_pos rfl, if_pos hnotool,
    Except.ok.injEq] at hws
  subst hws
  constructor
  · exact List.mem_append_right _ (by simp)
  · intro he
    rw [if_pos (by simp [he])]
    rfl

/-- Witness for C6 at a concrete research record: both warnings fire in
the same run. -/
theorem C6_witness :
    research_warnings
      (.obj [("method", .obj [("tools_used", .arr [.str "firecrawl_scrape"])])])
      (prefOf "tavily") = .ok [noEvidenceMsg, tavilyMsg] ∧
    tavilyMsg ∈ ([noEvidenceMsg, tavilyMsg] : List String) ∧
    noEvidenceMsg ∈ ([noEvidenceMsg, tavilyMsg] : List String) :=
  ⟨rfl,
   ((C6_tool_warnings
      [("method", .obj [("tools_used", .arr [.str "firecrawl_scrape"])])]
      [("tools_used", .arr [.str "firecrawl_scrape"])] rfl rfl).2
      [noEvidenceMsg, tavilyMsg] rfl).1,
   List.mem_cons_self _ _⟩

/-! ## Claim C8 -/

/-- A collector state none of whose recorded fragments contains the
`"<|tool_call"` marker. -/
def cleanState (st : SState) : Prop :=
  (∀ t ∈ st.collected, strIn "<|tool_call".data t.data = false) ∧
  (∀ e ∈ st.emitted, strIn "<|tool_call".data e.2.1.data = false)

theorem processTexts_clean (rin rn tag : String) (stop : Nat → Bool) :
    ∀ (items : List TextItem) (st : SState),
      cleanState st → cleanState (outState (processTexts rin rn tag stop items st))
  | [], st, h => by simpa [processTexts, outState] using h
  | (t, kind) :: rest, st, h => by
    simp only [processTexts]
    by_cases hstop : stop st.ctr = true
    · rw [if_pos hstop]; simpa [outState] using h
    · rw [if_neg hstop]
      by_cases hd : fragmentDiscarded rin rn ({ st with ctr := st.ctr + 1 } : SState).seen t = true
      · rw [if_pos hd]
        exact processTexts_clean rin rn tag stop rest _ h
      · rw [if_neg hd]
        refine processTexts_clean rin rn tag stop rest _ ?_
        have hmark : strIn "<|tool_call".data t.data = false := by
          simp [fragmentDiscarded] at hd
          exact hd.1.1.1.1.1.1.1.1.1.1.1
        constructor
        · intro x hx
          rcases List.mem_append.mp hx with hx | hx
          · exact h.1 x hx
          · rw [List.mem_singleton.mp hx]; exact hmark
        · intro e he
          rcases List.mem_append.mp he with he | he
          · exact h.2 e he
          · rw [List.mem_singleton.mp he]; exact hmark

theorem processChunks_clean (rin rn tag : String) (stop : Nat → Bool) :
    ∀ (chunks : List Chunk) (st : SState),
      cleanState st → cleanState (outState (processChunks rin rn tag stop chunks st))
  | [], st, h => by simpa [processChunks, outState] using h
  | chunk :: rest, st, h => by
    simp only [processChunks]
    by_cases hstop : stop st.ctr = true
    · rw [if_pos hstop]; simpa [outState] using h
    · rw [if_neg hstop]
      have h1 := processTexts_clean rin rn tag stop chunk { st with ctr := st.ctr + 1 } h
      cases hpt : processTexts rin rn tag stop chunk { st with ctr := st.ctr + 1 } with
      | error st2 => rw [hpt] at h1; simpa [outState] using h1
      | ok st2 =>
        rw [hpt] at h1
        simp only [outState] at h1
        exact processChunks_clean rin rn tag stop rest st2 h1

/-- C8: during one role invocation the stream filter & collector never
records — neither in the accumulator (whose fragments are also the ones
printed) nor in the observer-forwarded list — any fragment whose text
contains the marker substring `"<|tool_call"`, whether the invocation
completes or is cancelled. -/
theorem C8_no_tool_call_marker (role_name registered_prompt tag : String)
    (chunks : List Chunk) (shouldStop : Nat → Bool) (ctr : Nat) :
    (∀ t ∈ (outState (stream_subagent role_name registered_prompt tag
        chunks shouldStop ctr)).collected,
      strIn "<|tool_call".data t.data = false) ∧
    (∀ e ∈ (outState (stream_subagent role_name registered_prompt tag
        chunks shouldStop ctr)).emitted,
      strIn "<|tool_call".data e.2.1.data = false) :=
  processChunks_clean (normalize_short (roleInvocation role_name))
    (normalize_short registered_prompt 300) tag shouldStop chunks
    ⟨[], [], [], ctr⟩ ⟨by simp, by simp⟩

set_option maxRecDepth 40000 in
/-- Witness for C8: a concrete invocation that accepts a fragment, with
the conclusion instantiated at it. -/
theorem C8_witness :
    "hello" ∈ (outState (stream_subagent "research-agent" "" "research"
        [[("hello", "content")]] (fun _ => false) 0)).collected ∧
    strIn "<|tool_call".data "hello".data = false := by
  have hmem : "hello" ∈ (outState (stream_subagent "research-agent" "" "research"
      [[("hello", "content")]] (fun _ => false) 0)).collected := by
    have : (outState (stream_subagent "research-agent" "" "research"
        [[("hello", "content")]] (fun _ => false) 0)).collected = ["hello"] := rfl
    rw [this]
    exact List.mem_singleton.mpr rfl
  exact ⟨hmem,
    (C8_no_tool_call_marker "research-agent" "" "research"
      [[("hello", "content")]] (fun _ => false) 0).1 "hello" hmem⟩

/-! ## Claim C4 -/

/-- C4: if the stop predicate fires during the research stage's fragment
stream, `run_conversation` returns the distinct user-cancellation
signal unmodified (it is never turned into a parse fallback, which is
structurally impossible here since parse fallbacks are pure values) and
invokes no later stage: the invocation trace ends at the research
stage. -/
theorem C4_cancellation_propagates (subPrompts : String → String)
    (streams : AgentStreams) (q pref : String) (stop : Nat → Bool)
    (st1 st2 : SState) (focus : JVal)
    (h1 : stream_subagent "planner-agent" (subPrompts "planner-agent") "planner"
        streams.planner stop 0 = .ok st1)
    (hf : research_focus_of (String.join st1.collected) q
        (parse_stage (String.join st1.collected)) = .ok focus)
    (h2 : stream_subagent "research-agent" (subPrompts "research-agent") "research"
        streams.research stop st1.ctr = .error st2) :
    run_conversation subPrompts streams q pref stop =
      (["planner-agent", "research-agent"], .error .stopped) := by
  simp only [run_conversation, h1, hf, h2]
  rfl

/-- The concrete streams of the cancellation scenario: the stop
predicate becomes true after the first accepted fragment of the
research stage. -/
def cancelScenarioStreams : AgentStreams :=
  { planner := [[("hello world", "content")]]
    research := [[("frag one", "content"), ("frag two", "content")]]
    candidate := [], critic := [], final := [] }

set_option maxRecDepth 40000 in
/-- Witness for C4 at the concrete cancellation scenario. -/
theorem C4_witness :
    stream_subagent "planner-agent" "" "planner" [[("hello world", "content")]]
        (fun n => decide (4 ≤ n)) 0 =
      .ok ⟨["hello world"], ["hello world"], [("planner", "hello world", "content")], 2⟩ ∧
    stream_subagent "research-agent" "" "research" cancelScenarioStreams.research
        (fun n => decide (4 ≤ n)) 2 =
      .error ⟨["frag one"], ["frag one"], [("research", "frag one", "content")], 5⟩ ∧
    run_conversation (fun _ => "") cancelScenarioStreams "q" "firecrawl"
        (fun n => decide (4 ≤ n)) =
      (["planner-agent", "research-agent"], .error .stopped) :=
  ⟨rfl, rfl, C4_cancellation_propagates _ _ _ _ _ _ _ _ rfl rfl rfl⟩

/-! ## Claim C3 (corrected) -/

theorem run_ok_fields (sp : String → String) (streams : AgentStreams)
    (q pref : String) (stop : Nat → Bool) (r : ConvResult)
    (h : (run_conversation sp streams q pref stop).2 = .ok r) :
    r.plan_parsed = parse_stage r.planner ∧
    r.research_json = research_json_of r.research_raw ∧
    r.critic_json = critic_json_of r.critic_raw := by
  unfold run_conversation at h
  cases h1 : stream_subagent "planner-agent" (sp "planner-agent") "planner"
      streams.planner stop 0 with
  | error st => simp [h1] at h
  | ok st1 =>
  simp only [h1] at h
  cases h2 : research_focus_of (String.join st1.collected) q
      (parse_stage (String.join st1.collected)) with
  | error e => simp [h2] at h
  | ok focus =>
  simp only [h2] at h
  cases h3 : stream_subagent "research-agent" (sp "research-agent") "research"
      streams.research stop st1.ctr with
  | error st => simp [h3] at h
  | ok st2 =>
  simp only [h3] at h
  cases h4 : research_warnings (research_json_of (String.join st2.collected)) (prefOf pref) with
  | error e => simp [h4] at h
  | ok warnings =>
  simp only [h4] at h
  cases h5 : stream_subagent "main-agent" (sp "main-agent") "reasoning"
      streams.candidate stop st2.ctr with
  | error st => simp [h5] at h
  | ok st3 =>
  simp only [h5] at h
  cases h6 : stream_subagent "critic-agent" (sp "critic-agent") "critic"
      streams.critic stop st3.ctr with
  | error st => simp [h6] at h
  | ok st4 =>
  simp only [h6] at h
  cases h7 : stream_subagent "main-agent" (sp "main-agent") "final"
      streams.final stop st4.ctr with
  | error st => simp [h7] at h
  | ok st5 =>
  simp only [h7, Except.ok.injEq] at h
  subst h
  exact ⟨rfl, rfl, rfl⟩

theorem research_json_cases (raw : String) :
    research_json_of raw = researchFallback raw ∨
      ∃ v, parse_stage raw = some v ∧ truthy v = true ∧ research_json_of raw = v := by
  unfold research_json_of
  cases hp : parse_stage raw with
  | none => left; rfl
  | some v =>
    by_cases ht : truthy v = true
    · right
      refine ⟨v, rfl, ht, ?_⟩
      show (if truthy v = true then v else researchFallback raw) = v
      rw [if_pos ht]
    · left
      show (if truthy v = true then v else researchFallback raw) = researchFallback raw
      rw [if_neg ht]

theorem critic_json_cases (raw : String) :
    critic_json_of raw = criticFallback raw ∨
      ∃ v, parse_stage raw = some v ∧ truthy v = true ∧ critic_json_of raw = v := by
  unfold critic_json_of
  cases hp : parse_stage raw with
  | none => left; rfl
  | some v =>
    by_cases ht : truthy v = true
    · right
      refine ⟨v, rfl, ht, ?_⟩
      show (if truthy v = true then v else criticFallback raw) = v
      rw [if_pos ht]
    · left
      show (if truthy v = true then v else criticFallback raw) = criticFallback raw
      rw [if_neg ht]

/-- The concrete streams of the C3 counterexample: the planner produces
unparsable text, so `plan_parsed` in the returned result is `None`. -/
def c3Streams : AgentStreams :=
  { planner := [[("garbage text here", "content")]]
    research := [[("research gibberish", "content")]]
    candidate := [[("candidate answer", "content")]]
    critic := [[("critic gibberish", "content")]]
    final := [[("final answer", "content")]] }

set_option maxRecDepth 40000 in
/-- C3 counterexample: a completed conversation turn whose returned
result has `plan_parsed = None` — a `ParsedArtifact`-typed field of the
returned `ConversationResult` that IS null, contradicting the claim. -/
theorem C3_counterexample :
    ((run_conversation (fun _ => "") c3Streams "q" "firecrawl" (fun _ => false)).2).map
      (fun r => r.plan_parsed) = .ok none := rfl

/-- C3 amended: in every completed conversation turn, `research_json`
and `critic_json` are each either the stage's explicit fallback value
or a truthy successfully-parsed value — never null; `plan_parsed`,
however, is exactly the two-attempt parse result and is `None` whenever
both parse attempts fail (the research focus then falls back
independently). -/
theorem C3_parsed_or_fallback (sp : String → String) (streams : AgentStreams)
    (q pref : String) (stop : Nat → Bool) (r : ConvResult)
    (h : (run_conversation sp streams q pref stop).2 = .ok r) :
    r.plan_parsed = parse_stage r.planner ∧
    (r.research_json = researchFallback r.research_raw ∨
      ∃ v, parse_stage r.research_raw = some v ∧ truthy v = true ∧ r.research_json = v) ∧
    (r.critic_json = criticFallback r.critic_raw ∨
      ∃ v, parse_stage r.critic_raw = some v ∧ truthy v = true ∧ r.critic_json = v) := by
  obtain ⟨hp, hr, hc⟩ := run_ok_fields sp streams q pref stop r h
  refine ⟨hp, ?_, ?_⟩
  · rw [hr]; exact research_json_cases r.research_raw
  · rw [hc]; exact critic_json_cases r.critic_raw

/-- A conversation turn whose five streams are all empty. -/
def emptyStreams : AgentStreams :=
  { planner := [], research := [], candidate := [], critic := [], final := [] }

/-- The result of the empty-stream conversation turn. -/
def emptyRunResult : ConvResult :=
  { user_question := "q", planner := "", plan_parsed := none,
    research_raw := "", research_json := researchFallback "",
    candidate := "", critic_raw := "", critic_json := criticFallback "",
    final := "", warnings := [noEvidenceMsg, firecrawlMsg] }

theorem emptyRun_eval :
    (run_conversation (fun _ => "") emptyStreams "q" "firecrawl" (fun _ => false)).2 =
      .ok emptyRunResult := rfl

/-- Witness for C3 at the empty-stream conversation turn. -/
theorem C3_witness :
    (run_conversation (fun _ => "") emptyStreams "q" "firecrawl" (fun _ => false)).2 =
      .ok emptyRunResult ∧
    (emptyRunResult.plan_parsed = parse_stage emptyRunResult.planner ∧
      (emptyRunResult.research_json = researchFallback emptyRunResult.research_raw ∨
        ∃ v, parse_stage emptyRunResult.research_raw = some v ∧ truthy v = true ∧
          emptyRunResult.research_json = v) ∧
      (emptyRunResult.critic_json = criticFallback emptyRunResult.critic_raw ∨
        ∃ v, parse_stage emptyRunResult.critic_raw = some v ∧ truthy v = true ∧
          emptyRunResult.critic_json = v)) :=
  ⟨emptyRun_eval,
   C3_parsed_or_fallback (fun _ => "") emptyStreams "q" "firecrawl" (fun _ => false)
     emptyRunResult emptyRun_eval⟩

/-! ## Claim C2 (corrected) -/


theorem lower_shift_facts (m : Nat) (h1 : 65 ≤ m) (h2 : m ≤ 90) :
    (Char.ofNat (m + 32)).toNat = m + 32 ∧
    (Char.ofNat (m + 32)).isWhitespace = false ∧
    Char.ofNat (m + 32) ≠ ' ' := by
  interval_cases m <;> exact ⟨rfl, rfl, by decide⟩

theorem char_bounds_not_ws (c : Char) (h1 : 65 ≤ c.toNat) (h2 : c.toNat ≤ 90) :
    c.isWhitespace = false := by
  simp only [Char.isWhitespace, Bool.or_eq_false_iff, decide_eq_false_iff_not]
  refine ⟨⟨⟨?_, ?_⟩, ?_⟩, ?_⟩ <;>
    · intro h
      subst h
      exact absurd h1 (by decide)

theorem char_bounds_ne_space (c : Char) (h1 : 65 ≤ c.toNat) (h2 : c.toNat ≤ 90) :
    c ≠ ' ' := by
  intro h
  subst h
  exact absurd h1 (by decide)

theorem pyLowerChar_idem (c : Char) : pyLowerChar (pyLowerChar c) = pyLowerChar c := by
  unfold pyLowerChar
  by_cases h : 65 ≤ c.toNat ∧ c.toNat ≤ 90
  · rw [if_pos h]
    obtain ⟨ht, -, -⟩ := lower_shift_facts c.toNat h.1 h.2
    rw [if_neg]
    intro hh
    rw [ht] at hh
    omega
  · rw [if_neg h, if_neg h]

theorem pyLowerChar_isWhitespace (c : Char) :
    (pyLowerChar c).isWhitespace = c.isWhitespace := by
  unfold pyLowerChar
  by_cases h : 65 ≤ c.toNat ∧ c.toNat ≤ 90
  · rw [if_pos h]
    obtain ⟨-, hw, -⟩ := lower_shift_facts c.toNat h.1 h.2
    rw [hw, char_bounds_not_ws c h.1 h.2]
  · rw [if_neg h]

theorem pyLowerChar_eq_space (c : Char) : pyLowerChar c = ' ' ↔ c = ' ' := by
  unfold pyLowerChar
  by_cases h : 65 ≤ c.toNat ∧ c.toNat ≤ 90
  · rw [if_pos h]
    obtain ⟨-, -, hne⟩ := lower_shift_facts c.toNat h.1 h.2
    exact ⟨fun hh => absurd hh hne, fun hh => absurd hh (char_bounds_ne_space c h.1 h.2)⟩
  · rw [if_neg h]

/-- Adjacent-space freedom: the invariant that truncation can break only
at the very end. -/
def noDouble (l : List Char) : Prop :=
  List.Chain' (fun a b => ¬ (a = ' ' ∧ b = ' ')) l

theorem pyWordsAux_words_clean :
    ∀ (l acc : List Char), (∀ c ∈ acc, c.isWhitespace = false) →
      ∀ w ∈ pyWordsAux l acc, w ≠ [] ∧ ∀ c ∈ w, c.isWhitespace = false
  | [], acc, hacc, w, hw => by
    unfold pyWordsAux at hw
    by_cases h : acc = []
    · rw [if_pos h] at hw; simp at hw
    · rw [if_neg h] at hw
      rw [List.mem_singleton] at hw
      subst hw
      refine ⟨by simpa using h, ?_⟩
      intro c hc
      exact hacc c (List.mem_reverse.mp hc)
  | a :: l, acc, hacc, w, hw => by
    unfold pyWordsAux at hw
    by_cases ha : a.isWhitespace = true
    · rw [if_pos ha] at hw
      by_cases h : acc = []
      · rw [if_pos h] at hw
        exact pyWordsAux_words_clean l [] (by simp) w hw
      · rw [if_neg h] at hw
        rcases List.mem_cons.mp hw with hw | hw
        · subst hw
          refine ⟨by simpa using h, ?_⟩
          intro c hc
          exact hacc c (List.mem_reverse.mp hc)
        · exact pyWordsAux_words_clean l [] (by simp) w hw
    · rw [if_neg ha] at hw
      refine pyWordsAux_words_clean l (a :: acc) ?_ w hw
      intro c hc
      rcases List.mem_cons.mp hc with hc | hc
      · subst hc; simpa using ha
      · exact hacc c hc

theorem chain'_of_no_space (l : List Char)
    (h : ∀ c ∈ l, c.isWhitespace = false) : noDouble l := by
  induction l with
  | nil => exact List.chain'_nil
  | cons a t ih =>
    cases t with
    | nil => exact List.chain'_singleton a
    | cons b t2 =>
      refine List.chain'_cons.mpr ⟨?_, ih (fun c hc => h c (List.mem_cons_of_mem a hc))⟩
      intro hab
      have := h a (by simp)
      rw [hab.1] at this
      exact absurd this (by decide)

theorem joinWords_good :
    ∀ (ws : List (List Char)),
      (∀ w ∈ ws, w ≠ [] ∧ ∀ c ∈ w, c.isWhitespace = false) →
      (joinWords ws).head? ≠ some ' ' ∧ noDouble (joinWords ws) ∧
        (∀ c ∈ joinWords ws, c.isWhitespace = false ∨ c = ' ')
  | [], _ => by simp [joinWords, noDouble]
  | [w], hws => by
    obtain ⟨hne, hcl⟩ := hws w (by simp)
    refine ⟨?_, chain'_of_no_space w hcl, fun c hc => Or.inl (hcl c hc)⟩
    cases w with
    | nil => exact absurd rfl hne
    | cons a t =>
      simp only [joinWords, List.head?_cons, ne_eq, Option.some.injEq]
      intro h
      subst h
      exact absurd (hcl ' ' (by simp)) (by decide)
  | w :: w2 :: ws, hws => by
    obtain ⟨hne, hcl⟩ := hws w (by simp)
    have hrest := joinWords_good (w2 :: ws) (fun x hx => hws x (List.mem_cons_of_mem w hx))
    obtain ⟨hh, hch, hmem⟩ := hrest
    have hj : joinWords (w :: w2 :: ws) = w ++ ' ' :: joinWords (w2 :: ws) := rfl
    refine ⟨?_, ?_, ?_⟩
    · rw [hj]
      cases w with
      | nil => exact absurd rfl hne
      | cons a t =>
        simp only [List.cons_append, List.head?_cons, ne_eq, Option.some.injEq]
        intro h
        subst h
        exact absurd (hcl ' ' (by simp)) (by decide)
    · rw [hj]
      rw [noDouble, List.chain'_append]
      refine ⟨chain'_of_no_space w hcl, ?_, ?_⟩
      · rw [List.chain'_cons']
        refine ⟨?_, hch⟩
        intro y hy hcon
        exact hh (by rw [hcon.2] at hy; exact hy)
      · intro x hx y hy hcon
        have := hcl x (List.mem_of_mem_getLast? hx)
        rw [List.head?_cons, Option.mem_def, Option.some.injEq] at hy
        rw [hcon.1] at this
        exact absurd this (by decide)
    · rw [hj]
      intro c hc
      rcases List.mem_append.mp hc with hc | hc
      · exact Or.inl (hcl c hc)
      · rcases List.mem_cons.mp hc with hc | hc
        · exact Or.inr hc
        · exact hmem c hc


theorem pyWordsAux_ne_nil : ∀ (l acc : List Char), acc ≠ [] → pyWordsAux l acc ≠ []
  | [], acc, h => by
    unfold pyWordsAux
    rw [if_neg h]
    simp
  | a :: l, acc, h => by
    unfold pyWordsAux
    by_cases ha : a.isWhitespace = true
    · rw [if_pos ha, if_neg h]
      simp
    · rw [if_neg ha]
      exact pyWordsAux_ne_nil l (a :: acc) (by simp)

theorem joinWords_cons_ne (w : List Char) (ws : List (List Char)) (h : ws ≠ []) :
    joinWords (w :: ws) = w ++ ' ' :: joinWords ws := by
  cases ws with
  | nil => exact absurd rfl h
  | cons w2 ws2 => rfl

theorem pyWordsAux_join :
    ∀ (l acc : List Char), acc ≠ [] →
      (∀ c ∈ l, c.isWhitespace = false ∨ c = ' ') →
      noDouble l →
      l.getLast? ≠ some ' ' →
      joinWords (pyWordsAux l acc) = acc.reverse ++ l
  | [], acc, hacc, _, _, _ => by
    unfold pyWordsAux
    rw [if_neg hacc]
    simp [joinWords]
  | c :: cs, acc, hacc, hchars, hchain, hlast => by
    unfold pyWordsAux
    by_cases hc : c.isWhitespace = true
    · have hcsp : c = ' ' := by
        rcases hchars c (by simp) with h | h
        · rw [hc] at h; exact absurd h (by decide)
        · exact h
      rw [if_pos hc, if_neg hacc]
      cases cs with
      | nil =>
        exfalso
        apply hlast
        rw [hcsp]
        rfl
      | cons d cs2 =>
        have hd_ne_sp : d ≠ ' ' := by
          intro hdd
          have := (List.chain'_cons.mp hchain).1
          exact this ⟨hcsp, hdd⟩
        have hd_ws : d.isWhitespace = false := by
          rcases hchars d (by simp) with h | h
          · exact h
          · exact absurd h hd_ne_sp
        have hrec : pyWordsAux (d :: cs2) [] = pyWordsAux cs2 [d] := by
          conv_lhs => rw [pyWordsAux]
          rw [if_neg (by rw [hd_ws]; simp)]
        rw [hrec]
        have hne := pyWordsAux_ne_nil cs2 [d] (by simp)
        rw [joinWords_cons_ne _ _ hne]
        have hcs2chars : ∀ x ∈ cs2, x.isWhitespace = false ∨ x = ' ' := by
          intro x hx
          exact hchars x (by simp [hx])
        have hcs2chain : noDouble cs2 := ((List.chain'_cons.mp hchain).2).tail
        have hcs2last : cs2.getLast? ≠ some ' ' := by
          cases cs2 with
          | nil => simp
          | cons e cs3 =>
            intro hl
            apply hlast
            rw [List.getLast?_cons_cons, List.getLast?_cons_cons]
            exact hl
        rw [pyWordsAux_join cs2 [d] (by simp) hcs2chars hcs2chain hcs2last]
        rw [hcsp]
        simp
    · rw [if_neg hc]
      have hcs_chars : ∀ x ∈ cs, x.isWhitespace = false ∨ x = ' ' := by
        intro x hx
        exact hchars x (by simp [hx])
      have hcs_chain : noDouble cs := hchain.tail
      have hcs_last : cs.getLast? ≠ some ' ' := by
        cases cs with
        | nil => simp
        | cons e cs2 =>
          intro hl
          apply hlast
          rw [List.getLast?_cons_cons]
          exact hl
      rw [pyWordsAux_join cs (c :: acc) (by simp) hcs_chars hcs_chain hcs_last]
      simp

theorem join_pyWords_id (l : List Char)
    (hchars : ∀ c ∈ l, c.isWhitespace = false ∨ c = ' ')
    (hchain : noDouble l)
    (hhead : l.head? ≠ some ' ')
    (hlast : l.getLast? ≠ some ' ') :
    joinWords (pyWords l) = l := by
  cases l with
  | nil => rfl
  | cons c cs =>
    have hcp : c ≠ ' ' := by
      intro h
      exact hhead (by rw [h]; rfl)
    have hcw : c.isWhitespace = false := by
      rcases hchars c (by simp) with h | h
      · exact h
      · exact absurd h hcp
    show joinWords (pyWordsAux (c :: cs) []) = c :: cs
    conv_lhs => rw [pyWordsAux]
    rw [if_neg (by rw [hcw]; simp)]
    have hcs_chars : ∀ x ∈ cs, x.isWhitespace = false ∨ x = ' ' := by
      intro x hx
      exact hchars x (by simp [hx])
    have hcs_last : cs.getLast? ≠ some ' ' := by
      cases cs with
      | nil => simp
      | cons e cs2 =>
        intro hl
        apply hlast
        rw [List.getLast?_cons_cons]
        exact hl
    rw [pyWordsAux_join cs [c] (by simp) hcs_chars hchain.tail hcs_last]
    simp


theorem head?_take_eq {α : Type} (n : Nat) (l : List α) (x : α)
    (h : (l.take n).head? = some x) : l.head? = some x := by
  cases n with
  | zero => simp at h
  | succ m =>
    cases l with
    | nil => simp at h
    | cons c cs => simpa using h

theorem normalize_list_props (s : String) (n : Nat) :
    (∀ c ∈ (normalize_short s n).data, c.isWhitespace = false ∨ c = ' ') ∧
    noDouble (normalize_short s n).data ∧
    (normalize_short s n).data.head? ≠ some ' ' ∧
    (∀ c ∈ (normalize_short s n).data, pyLowerChar c = c) ∧
    (normalize_short s n).data.length ≤ n := by
  have hwords := pyWordsAux_words_clean s.data [] (by simp)
  have hbase := joinWords_good (pyWords s.data) hwords
  obtain ⟨hh, hch, hmem⟩ := hbase
  set base := joinWords (pyWords s.data) with hbase_def
  have hdata : (normalize_short s n).data = (base.map pyLowerChar).take n := rfl
  rw [hdata]
  refine ⟨?_, ?_, ?_, ?_, ?_⟩
  · intro c hc
    have hc2 := List.mem_of_mem_take hc
    obtain ⟨c0, hc0, hfc⟩ := List.mem_map.mp hc2
    subst hfc
    rcases hmem c0 hc0 with h | h
    · left; rw [pyLowerChar_isWhitespace]; exact h
    · right; rw [h]; decide
  · have : noDouble (base.map pyLowerChar) := by
      rw [noDouble, List.chain'_map]
      refine hch.imp ?_
      intro a b hab habs
      exact hab ⟨(pyLowerChar_eq_space a).mp habs.1, (pyLowerChar_eq_space b).mp habs.2⟩
    exact this.prefix (List.take_prefix n _)
  · intro hsp
    have := head?_take_eq n (base.map pyLowerChar) ' ' hsp
    cases hb : base with
    | nil => rw [hb] at this; simp at this
    | cons c cs =>
      rw [hb] at this
      simp only [List.map_cons, List.head?_cons, Option.some.injEq] at this
      apply hh
      rw [hb, List.head?_cons, (pyLowerChar_eq_space c).mp this]
  · intro c hc
    have hc2 := List.mem_of_mem_take hc
    obtain ⟨c0, hc0, hfc⟩ := List.mem_map.mp hc2
    subst hfc
    exact pyLowerChar_idem c0
  · rw [List.length_take]; omega

/-- C2 counterexample: `normalize` is not idempotent — truncation can
leave a trailing space which a second application strips:
`normalize("ab cd", 3) = "ab "` but `normalize("ab ", 3) = "ab"`. -/
theorem C2_counterexample :
    normalize_short (normalize_short "ab cd" 3) 3 ≠ normalize_short "ab cd" 3 ∧
    normalize_short "ab cd" 3 = "ab " ∧
    normalize_short (normalize_short "ab cd" 3) 3 = "ab" :=
  ⟨by decide, rfl, rfl⟩

/-- C2 amended: `normalize` is idempotent whenever its result does not
end in a space (in particular whenever no truncation occurred);
truncation at a word boundary is the only source of non-idempotence. -/
theorem C2_normalize_idem (s : String) (n : Nat)
    (h : (normalize_short s n).data.getLast? ≠ some ' ') :
    normalize_short (normalize_short s n) n = normalize_short s n := by
  obtain ⟨hchars, hchain, hhead, hfix, hlen⟩ := normalize_list_props s n
  set t := (normalize_short s n).data with ht
  have houter : normalize_short (normalize_short s n) n =
      String.mk (((joinWords (pyWords t)).map pyLowerChar).take n) := rfl
  rw [houter]
  rw [join_pyWords_id t hchars hchain hhead h]
  rw [List.map_congr_left hfix, List.map_id']
  rw [List.take_of_length_le hlen]

/-- Witness for C2 at a concrete input whose normalization is not
truncated into a trailing space. -/
theorem C2_witness :
    (normalize_short "hello WORLD" 300).data.getLast? ≠ some ' ' ∧
    normalize_short (normalize_short "hello WORLD" 300) 300 =
      normalize_short "hello WORLD" 300 :=
  ⟨by decide, C2_normalize_idem "hello WORLD" 300 (by decide)⟩

/-! ## Claim C7 (corrected) -/


/-- The pure bracket scan underlying `extract_json_substring`: process
characters maintaining the open-bracket stack, and split the input at
the first point where the stack returns to empty.  `some (c, r)` means
the scan consumed `c` (ending at the closing bracket that emptied the
stack) leaving `r`; `none` means the stack never returned to empty
(or a closing bracket arrived on an empty stack). -/
def scanSplit : List Char → List Char → Option (List Char × List Char)
  | _, [] => none
  | stack, ch :: rest =>
    if isOpen ch then
      (scanSplit (ch :: stack) rest).map (fun p => (ch :: p.1, p.2))
    else if isClose ch then
      match stack with
      | [] => none
      | [_] => some ([ch], rest)
      | _ :: st1 :: stack2 =>
        (scanSplit (st1 :: stack2) rest).map (fun p => (ch :: p.1, p.2))
    else
      (scanSplit stack rest).map (fun p => (ch :: p.1, p.2))

theorem scanSplit_append (extra : List Char) :
    ∀ (chars stack c r : List Char), scanSplit stack chars = some (c, r) →
      scanSplit stack (chars ++ extra) = some (c, r ++ extra)
  | [], stack, c, r, h => by simp [scanSplit] at h
  | ch :: rest, stack, c, r, h => by
    rw [List.cons_append]
    simp only [scanSplit] at h ⊢
    by_cases ho : isOpen ch = true
    · rw [if_pos ho] at h ⊢
      cases hs : scanSplit (ch :: stack) rest with
      | none => rw [hs] at h; simp at h
      | some p =>
        rw [hs] at h
        simp only [Option.map_some', Option.some.injEq, Prod.mk.injEq] at h
        have hx := scanSplit_append extra rest (ch :: stack) p.1 p.2 (by rw [hs])
        rw [hx, ← h.1, ← h.2]
        rfl
    · rw [if_neg ho] at h ⊢
      by_cases hc : isClose ch = true
      · rw [if_pos hc] at h ⊢
        cases stack with
        | nil =>
          exact absurd (show (none : Option (List Char × List Char)) = some (c, r) from h)
            (by simp)
        | cons st0 stackTail =>
          cases stackTail with
          | nil =>
            have h2 : some ([ch], rest) = some (c, r) := h
            simp only [Option.some.injEq, Prod.mk.injEq] at h2
            show some ([ch], rest ++ extra) = some (c, r ++ extra)
            rw [← h2.1, ← h2.2]
          | cons st1 stack2 =>
            have h2 : Option.map (fun p => (ch :: p.1, p.2))
                (scanSplit (st1 :: stack2) rest) = some (c, r) := h
            show Option.map (fun p => (ch :: p.1, p.2))
                (scanSplit (st1 :: stack2) (rest ++ extra)) = some (c, r ++ extra)
            cases hs : scanSplit (st1 :: stack2) rest with
            | none => rw [hs] at h2; simp at h2
            | some p =>
              rw [hs] at h2
              simp only [Option.map_some', Option.some.injEq, Prod.mk.injEq] at h2
              have hx := scanSplit_append extra rest (st1 :: stack2) p.1 p.2 (by rw [hs])
              rw [hx, ← h2.1, ← h2.2]
              rfl
      · rw [if_neg hc] at h ⊢
        cases hs : scanSplit stack rest with
        | none => rw [hs] at h; simp at h
        | some p =>
          rw [hs] at h
          simp only [Option.map_some', Option.some.injEq, Prod.mk.injEq] at h
          have hx := scanSplit_append extra rest stack p.1 p.2 (by rw [hs])
          rw [hx, ← h.1, ← h.2]
          rfl


theorem scanSplit_scanLoop (loads : String → Option JVal) :
    ∀ (chars stack c r : List Char), scanSplit stack chars = some (c, r) →
      ∀ consumedRev, scanLoop loads consumedRev stack chars =
        (if (loads (String.mk (consumedRev.reverse ++ c))).isSome = true
          then some (String.mk (consumedRev.reverse ++ c))
          else scanLoop loads (c.reverse ++ consumedRev) [] r)
  | [], stack, c, r, h => by simp [scanSplit] at h
  | ch :: rest, stack, c, r, h => by
    intro consumedRev
    simp only [scanSplit] at h
    simp only [scanLoop]
    by_cases ho : isOpen ch = true
    · rw [if_pos ho] at h ⊢
      cases hs : scanSplit (ch :: stack) rest with
      | none => rw [hs] at h; simp at h
      | some p =>
        rw [hs] at h
        simp only [Option.map_some', Option.some.injEq, Prod.mk.injEq] at h
        have hx := scanSplit_scanLoop loads rest (ch :: stack) p.1 p.2
          (by rw [hs]) (ch :: consumedRev)
        rw [hx, ← h.1, ← h.2]
        have e1 : (ch :: consumedRev).reverse ++ p.1 = consumedRev.reverse ++ ch :: p.1 := by
          simp
        have e2 : p.1.reverse ++ ch :: consumedRev = (ch :: p.1).reverse ++ consumedRev := by
          simp
        rw [e1, e2]
    · rw [if_neg ho] at h ⊢
      by_cases hc : isClose ch = true
      · rw [if_pos hc] at h ⊢
        cases stack with
        | nil =>
          exact absurd (show (none : Option (List Char × List Char)) = some (c, r) from h)
            (by simp)
        | cons st0 stackTail =>
          cases stackTail with
          | nil =>
            have h2 : some ([ch], rest) = some (c, r) := h
            simp only [Option.some.injEq, Prod.mk.injEq] at h2
            show (if ([] : List Char) = [] then
                if (loads (String.mk (ch :: consumedRev).reverse)).isSome = true
                  then some (String.mk (ch :: consumedRev).reverse)
                  else scanLoop loads (ch :: consumedRev) [] rest
              else scanLoop loads (ch :: consumedRev) [] rest) = _
            rw [if_pos rfl, ← h2.1, ← h2.2]
            have e1 : (ch :: consumedRev).reverse = consumedRev.reverse ++ [ch] := by simp
            have e2 : ([ch] : List Char).reverse ++ consumedRev = ch :: consumedRev := rfl
            rw [e1, e2]
          | cons st1 stack2 =>
            have h2 : Option.map (fun p => (ch :: p.1, p.2))
                (scanSplit (st1 :: stack2) rest) = some (c, r) := h
            show (if (st1 :: stack2 : List Char) = [] then
                if (loads (String.mk (ch :: consumedRev).reverse)).isSome = true
                  then some (String.mk (ch :: consumedRev).reverse)
                  else scanLoop loads (ch :: consumedRev) (st1 :: stack2) rest
              else scanLoop loads (ch :: consumedRev) (st1 :: stack2) rest) = _
            rw [if_neg (by simp)]
            cases hs : scanSplit (st1 :: stack2) rest with
            | none => rw [hs] at h2; simp at h2
            | some p =>
              rw [hs] at h2
              simp only [Option.map_some', Option.some.injEq, Prod.mk.injEq] at h2
              have hx := scanSplit_scanLoop loads rest (st1 :: stack2) p.1 p.2
                (by rw [hs]) (ch :: consumedRev)
              rw [hx, ← h2.1, ← h2.2]
              have e1 : (ch :: consumedRev).reverse ++ p.1 = consumedRev.reverse ++ ch :: p.1 := by
                simp
              have e2 : p.1.reverse ++ ch :: consumedRev = (ch :: p.1).reverse ++ consumedRev := by
                simp
              rw [e1, e2]
      · rw [if_neg hc] at h ⊢
        cases hs : scanSplit stack rest with
        | none => rw [hs] at h; simp at h
        | some p =>
          rw [hs] at h
          simp only [Option.map_some', Option.some.injEq, Prod.mk.injEq] at h
          have hx := scanSplit_scanLoop loads rest stack p.1 p.2
            (by rw [hs]) (ch :: consumedRev)
          rw [hx, ← h.1, ← h.2]
          have e1 : (ch :: consumedRev).reverse ++ p.1 = consumedRev.reverse ++ ch :: p.1 := by
            simp
          have e2 : p.1.reverse ++ ch :: consumedRev = (ch :: p.1).reverse ++ consumedRev := by
            simp
          rw [e1, e2]


theorem dropWhile_append_of_all {α : Type} (p : α → Bool) :
    ∀ (l1 l2 : List α), (∀ c ∈ l1, p c = true) →
      (l1 ++ l2).dropWhile p = l2.dropWhile p
  | [], l2, _ => rfl
  | a :: l1, l2, h => by
    rw [List.cons_append, List.dropWhile_cons, if_pos (h a (by simp))]
    exact dropWhile_append_of_all p l1 l2 (fun c hc => h c (by simp [hc]))

/-- C7 amended: `extractJson` applied to `noise ++ T ++ more_noise`,
where `T` is well-formed JSON beginning at the input's first `{` or `[`
and the naive bracket scan of `T` (which ignores string literals) first
returns to empty exactly at `T`'s last character — in particular when
no bracket character occurs inside `T`'s string literals — returns
exactly `T`, which parses to a value equivalent to `T`; and for every
input containing no `{` and no `[` it returns absent. -/
theorem C7_extract_roundtrip :
    (∀ (noise T suffix : String) (v : JVal) (b : Char),
      (∀ c ∈ noise.data, isOpen c = false) →
      T.data.head? = some b → isOpen b = true →
      scanSplit [] T.data = some (T.data, []) →
      json_loads T = some v →
      extract_json_substring (noise ++ T ++ suffix) = some T) ∧
    (∀ text : String, (∀ c ∈ text.data, isOpen c = false) →
      extract_json_substring text = none) := by
  constructor
  · intro noise T suffix v b hnoise hb hbo hscan hloads
    unfold extract_json_substring
    have hdata : (noise ++ T ++ suffix).data = noise.data ++ (T.data ++ suffix.data) := by
      rw [String.data_append, String.data_append, List.append_assoc]
    rw [hdata]
    have hdrop : (noise.data ++ (T.data ++ suffix.data)).dropWhile (fun c => ¬ isOpen c) =
        T.data ++ suffix.data := by
      rw [dropWhile_append_of_all _ noise.data _ (by intro c hc; simp [hnoise c hc])]
      cases hT : T.data with
      | nil => rw [hT] at hb; simp at hb
      | cons b0 tl =>
        rw [hT] at hb
        simp only [List.head?_cons, Option.some.injEq] at hb
        subst hb
        rw [List.cons_append, List.dropWhile_cons, if_neg (by simp [hbo])]
    rw [hdrop]
    have hsplit : scanSplit [] (T.data ++ suffix.data) = some (T.data, suffix.data) := by
      have := scanSplit_append suffix.data T.data [] T.data [] hscan
      simpa using this
    have hsim := scanSplit_scanLoop json_loads (T.data ++ suffix.data) [] T.data suffix.data
      hsplit []
    have hne : (T.data ++ suffix.data).isEmpty = false := by
      cases hT : T.data with
      | nil => rw [hT] at hb; simp at hb
      | cons b0 tl => simp
    rw [if_neg (by simp [hne])]
    rw [hsim]
    simp only [List.reverse_nil, List.nil_append]
    rw [if_pos (by rw [show String.mk T.data = T from rfl, hloads]; rfl)]
  · intro text h
    unfold extract_json_substring
    rw [if_pos ?hp]
    case hp =>
      rw [List.dropWhile_eq_nil_iff.mpr (by intro c hc; simp [h c hc])]
      rfl

/-- C7 counterexample: for the well-formed JSON `T = {"a": "}"}` — whose
string literal contains a `}` — placed after bracket-free noise,
`extract_json_substring` returns `None` rather than a string parsing to
`T`'s value: the naive bracket counter is desynchronised by the brace
inside the string literal. -/
theorem C7_counterexample :
    json_loads "\x7b\"a\": \"\x7d\"\x7d" = some (.obj [("a", .str "\x7d")]) ∧
    (∀ c ∈ "noise".data, isOpen c = false) ∧
    "\x7b\"a\": \"\x7d\"\x7d".data.head? = some lbrace ∧
    isOpen lbrace = true ∧
    extract_json_substring ("noise" ++ "\x7b\"a\": \"\x7d\"\x7d" ++ "more noise") = none :=
  ⟨rfl, by decide, rfl, rfl, rfl⟩

/-- Witness for C7 at concrete inputs, covering both conjuncts. -/
theorem C7_witness :
    (∀ c ∈ "noise".data, isOpen c = false) ∧
    "\x7b\"a\": 1\x7d".data.head? = some lbrace ∧
    isOpen lbrace = true ∧
    scanSplit [] "\x7b\"a\": 1\x7d".data = some ("\x7b\"a\": 1\x7d".data, []) ∧
    json_loads "\x7b\"a\": 1\x7d" = some (.obj [("a", .num "1")]) ∧
    extract_json_substring ("noise" ++ "\x7b\"a\": 1\x7d" ++ "more noise") =
      some "\x7b\"a\": 1\x7d" ∧
    extract_json_substring "no brackets here" = none :=
  ⟨by decide, rfl, rfl, rfl, rfl,
   C7_extract_roundtrip.1 "noise" "\x7b\"a\": 1\x7d" "more noise" (.obj [("a", .num "1")]) lbrace
     (by decide) rfl rfl rfl rfl,
   C7_extract_roundtrip.2 "no brackets here" (by decide)⟩

end Kairox
